import Mathlib

/-!
Shallow embedding of the serve-static-bun static file server
(src/serve-static.ts, src/utils/collapse-slashes.ts,
src/utils/get-file-info.ts, src/middleware/bao.ts) and proofs about it.

Strings are modelled through their character lists; the filesystem is an
abstract map from paths to read outcomes, mirroring what `Bun.file(path)`
plus `arrayBuffer()` can report.
-/

namespace ServeStaticBun

/-- JS `str.endsWith("/")` on the character list of `str`. -/
def endsWithSlash (l : List Char) : Bool :=
  match l.getLast? with
  | some c => c = '/'
  | none => false

/-- One pass of JS `replaceAll(/[\x2f]+/g, "/")`: every maximal run of
slashes becomes a single slash. The boolean records whether the previous
character written was part of a slash run. -/
def collapseRunsAux : Bool → List Char → List Char
  | _, [] => []
  | prevSlash, c :: rest =>
    if c = '/' then
      if prevSlash then collapseRunsAux true rest
      else '/' :: collapseRunsAux true rest
    else c :: collapseRunsAux false rest

/-- Function `collapseSlashes` from src/utils/collapse-slashes.ts, on
character lists: wrap the input in one leading and one trailing slash,
collapse every run of slashes to a single slash
(`replaceAll(/[\x2f]+/g, "/")`), then JS `substring(1)` when
`keepLeading` is false and `substring(0, length - 1)` when
`keepTrailing` is false. -/
def collapseSlashesList (l : List Char) (keepLeading keepTrailing : Bool) :
    List Char :=
  let s := collapseRunsAux false ('/' :: (l ++ ['/']))
  let s := if !keepLeading then s.drop 1 else s
  let s := if !keepTrailing then s.take (s.length - 1) else s
  s

/-- The same `collapseSlashes(str, { keepLeading, keepTrailing })` on
strings. -/
def collapseSlashes (str : String) (keepLeading keepTrailing : Bool) :
    String :=
  String.mk (collapseSlashesList str.data keepLeading keepTrailing)

/-- Whether the list contains two consecutive slashes. -/
def hasDoubleSlash : List Char → Bool
  | [] => false
  | [_] => false
  | a :: b :: rest => (a = '/' && b = '/') || hasDoubleSlash (b :: rest)

/-- JS `str.startsWith(pat)` on character lists. -/
def startsWithPat : List Char → List Char → Bool
  | _, [] => true
  | [], _ :: _ => false
  | c :: l, p :: ps => c = p && startsWithPat l ps

/-- JS `str.indexOf(pat)`: index of the first occurrence of `pat` in `l`,
or `none` where JS returns `-1`. -/
def firstOccurrence (l pat : List Char) : Option Nat :=
  match l with
  | [] => if startsWithPat [] pat then some 0 else none
  | c :: rest =>
    if startsWithPat (c :: rest) pat then some 0
    else (firstOccurrence rest pat).map (fun n => n + 1)

/-- JS `str.replace(pat, "")`: remove the first occurrence of `pat`. -/
def replaceFirst (s pat : String) : String :=
  match firstOccurrence s.data pat.data with
  | some i => String.mk (s.data.take i ++ s.data.drop (i + pat.data.length))
  | none => s

/-- JS `str.split("/")` on character lists: always a nonempty list of
segments, with empty segments for leading, trailing and doubled slashes. -/
def splitOnSlash : List Char → List (List Char)
  | [] => [[]]
  | c :: rest =>
    match splitOnSlash rest with
    | [] => [[]]
    | s :: ss => if c = '/' then [] :: s :: ss else (c :: s) :: ss

/-- A `Bun.FileBlob` handle: its reported content type and its bytes. -/
structure FileBlob where
  type : String
  content : String

/-- What `await blob.arrayBuffer()` can do for a path: succeed, or reject
with a failure that either carries a `code` property or does not. -/
inductive ReadOutcome where
  | ok
  | err (code : Option String)

/-- The abstract filesystem entry behind a path: the blob handle
`Bun.file(path)` returns and the outcome of reading it. -/
structure FsEntry where
  blob : FileBlob
  read : ReadOutcome

/-- Predicate `isErrorlike` from src/types.ts:
`Object.hasOwn(error, "code")`. -/
def isErrorlike (code : Option String) : Bool :=
  code.isSome

/-- Interface `FileInfo` from src/utils/get-file-info.ts. -/
structure FileInfo where
  blob : FileBlob
  «exists» : Bool
  isFile : Bool
  mimeType : Option String := none

/-- Function `getMimeType` from src/utils/get-file-info.ts: cut the
blob's `type` at the first `";charset"` if present. -/
def getMimeType (blob : FileBlob) : String :=
  match firstOccurrence blob.type.data ";charset".data with
  | some i => String.mk (blob.type.data.take i)
  | none => blob.type

/-- Function `getFileInfo` from src/utils/get-file-info.ts over the abstract
filesystem `fs`: try to read the blob; on success the entry is an existing
regular file (with `application/octet-stream` mapped to an undetermined
mime type); on an error-like failure with code `"EISDIR"` the entry exists
but is not a file; any other failure is swallowed, leaving
`exists = false`. -/
def getFileInfo (fs : String → FsEntry) (path : String) : FileInfo :=
  let e := fs path
  let info : FileInfo := { blob := e.blob, «exists» := false, isFile := false }
  match e.read with
  | .ok =>
    let mimeType := getMimeType e.blob
    { info with
        «exists» := true
        isFile := true
        mimeType := if mimeType = "application/octet-stream" then none else some mimeType }
  | .err code =>
    if isErrorlike code then
      if code = some "EISDIR" then { info with «exists» := true } else info
    else info

/-- A header map built by JS object spread: later keys override. -/
def setHeader (hs : List (String × String)) (k v : String) :
    List (String × String) :=
  hs.filter (fun p => p.1 != k) ++ [(k, v)]

/-- Look a header up by exact name. -/
def getHeader : List (String × String) → String → Option String
  | [], _ => none
  | p :: t, k => if p.1 = k then some p.2 else getHeader t k

/-- A fetch `Response` as constructed by serve-static.ts: optional body,
status (200 when omitted) and the headers passed to the constructor. -/
structure Response where
  body : Option String
  status : Nat
  headers : List (String × String)

/-- The resolved options of `serveStatic`, defaults as in serve-static.ts.
`index = none` models `index: null`; `dotfiles` is the raw string. -/
structure ServeStaticOptions where
  index : Option String := some "index.html"
  dirTrailingSlash : Bool := true
  collapseSlashes : Bool := true
  stripFromPathname : Option String := none
  headers : List (String × String) := []
  dotfiles : String := "deny"
  defaultMimeType : String := "text/plain"
  charset : String := "utf-8"

/-- Function `getPathname` from serve-static.ts: remove the first occurrence of
`stripFromPathname` when that option is truthy (set and nonempty). -/
def getPathname (pathname : String) (stripFromPathname : Option String) :
    String :=
  match stripFromPathname with
  | some s => if s ≠ "" then replaceFirst pathname s else pathname
  | none => pathname

/-- Function `getRedirectPath` from serve-static.ts: when slash-collapsing is on,
collapse with `keepTrailing` set to whether the path already ends in a
slash; then append a slash for directories when `dirTrailingSlash` is on. -/
def getRedirectPath (pathname : String) (isFile : Bool)
    (collapseSlashesOpt dirTrailingSlash : Bool) : String :=
  let redirectPath := pathname
  let redirectPath :=
    if collapseSlashesOpt then
      collapseSlashes redirectPath true (endsWithSlash redirectPath.data)
    else redirectPath
  if dirTrailingSlash && !isFile && !(endsWithSlash redirectPath.data) then
    redirectPath ++ "/"
  else redirectPath

/-- Function `getFileToServe` from serve-static.ts: serve the requested file when
it is a file and the dotfile policy allows it, else try the directory's
index file, else nothing. -/
def getFileToServe (fs : String → FsEntry) (pathname : String)
    (requestedFile : FileInfo) (root : String)
    (index : Option String) (dotfiles : String) : Option FileInfo :=
  let isDotfile := startsWithPat ((splitOnSlash pathname.data).getLastD []) ".".data
  if requestedFile.isFile && (!isDotfile || dotfiles = "allow") then
    some requestedFile
  else
    let indexFile :=
      match index with
      | none => none
      | some idx => some (getFileInfo fs (root ++ "/" ++ pathname ++ "/" ++ idx))
    match indexFile with
    | some f => if f.«exists» && f.isFile then some f else none
    | none => none

/-- Closure `getResponse` from serve-static.ts (the resolver): 404 when the probe
says the path does not exist; else 308 when the normalized path differs;
else 200 with the chosen file; else 403. -/
def getResponse (fs : String → FsEntry) (root : String)
    (opts : ServeStaticOptions) (urlPathname : String) : Response :=
  let pathname := getPathname urlPathname opts.stripFromPathname
  let requestedFile := getFileInfo fs (root ++ "/" ++ pathname)
  if !requestedFile.«exists» then
    { body := some "404 Not Found"
      status := 404
      headers := setHeader opts.headers "Content-Type" ("text/plain; charset=" ++ opts.charset) }
  else
    let redirectPath := getRedirectPath pathname requestedFile.isFile
      opts.collapseSlashes opts.dirTrailingSlash
    if redirectPath ≠ pathname then
      { body := none
        status := 308
        headers := setHeader opts.headers "Location" redirectPath }
    else
      match getFileToServe fs pathname requestedFile root opts.index opts.dotfiles with
      | some fileToServe =>
        { body := some fileToServe.blob.content
          status := 200
          headers := setHeader opts.headers "Content-Type"
            ((fileToServe.mimeType.getD opts.defaultMimeType) ++ "; charset=" ++ opts.charset) }
      | none =>
        { body := some "403 Forbidden"
          status := 403
          headers := setHeader opts.headers "Content-Type" ("text/plain; charset=" ++ opts.charset) }

/-- A Bao.js `Context`: the request it carries, what has been sent
through it, and whether it was marked terminally sent. -/
structure Context where
  req : String
  sent : Option Response := none
  forceSent : Bool := false

/-- Operation `ctx.sendRaw(res)`: record the raw response on the context. -/
def Context.sendRaw (ctx : Context) (res : Response) : Context :=
  { ctx with sent := some res }

/-- Operation `ctx.forceSend()`: mark the context terminally sent. -/
def Context.forceSend (ctx : Context) : Context :=
  { ctx with forceSent := true }

/-- Function `getBaoMiddleware` from src/middleware/bao.ts: on 403 or
404, send only when `handleErrors`, else return the context untouched;
any other status is always sent and force-sent (the JS `switch` with the
fallthrough `case 403: case 404:` written as an if-chain). -/
def getBaoMiddleware (getRes : String → Response) (handleErrors : Bool) :
    Context → Context :=
  fun ctx =>
    let res := getRes ctx.req
    if res.status = 403 then
      if handleErrors then (ctx.sendRaw res).forceSend else ctx
    else if res.status = 404 then
      if handleErrors then (ctx.sendRaw res).forceSend else ctx
    else (ctx.sendRaw res).forceSend

/-- An example filesystem where every read fails with `ENOENT`. -/
def enoentFs : String → FsEntry :=
  fun _ => ⟨⟨"", ""⟩, ReadOutcome.err (some "ENOENT")⟩

/-- An example filesystem where every read fails with `EACCES`
(permission denied), an error code the probe does not classify. -/
def eaccesFs : String → FsEntry :=
  fun _ => ⟨⟨"", ""⟩, ReadOutcome.err (some "EACCES")⟩

/-- An example filesystem where every path is a directory: every read
fails with `EISDIR`. -/
def alwaysDirFs : String → FsEntry :=
  fun _ => ⟨⟨"", ""⟩, ReadOutcome.err (some "EISDIR")⟩

/-- An example filesystem with a single regular file at `p` whose blob
reports content type `mt` and content `c`; reads elsewhere fail with
`ENOENT`. -/
def fileAt (p mt c : String) : String → FsEntry :=
  fun q => if q = p then ⟨⟨mt, c⟩, ReadOutcome.ok⟩
    else ⟨⟨"", ""⟩, ReadOutcome.err (some "ENOENT")⟩

end ServeStaticBun

/-! Helper lemmas about header maps, the file probe and the branches of
the resolver. -/

namespace ServeStaticBun

theorem getHeader_setHeader_same (hs : List (String × String)) (k v : String) :
    getHeader (setHeader hs k v) k = some v := by
  induction hs with
  | nil => simp [getHeader, setHeader]
  | cons p t ih =>
    by_cases hp : p.1 = k
    · simpa [setHeader, getHeader, List.filter_cons, hp] using ih
    · simpa [setHeader, getHeader, List.filter_cons, hp] using ih

theorem getHeader_setHeader_ne (hs : List (String × String)) (k v k2 : String)
    (h : k2 ≠ k) : getHeader (setHeader hs k v) k2 = getHeader hs k2 := by
  induction hs with
  | nil => simp [getHeader, setHeader, Ne.symm h]
  | cons p t ih =>
    by_cases hp : p.1 = k
    · simpa [setHeader, getHeader, List.filter_cons, hp, Ne.symm h] using ih
    · by_cases hq : p.1 = k2
      · simp [setHeader, getHeader, List.filter_cons, hp, hq, h]
      · simpa [setHeader, getHeader, List.filter_cons, hp, hq] using ih

theorem getFileInfo_err_not_eisdir (fs : String → FsEntry) (path : String)
    (code : Option String) (hread : (fs path).read = ReadOutcome.err code)
    (hcode : code ≠ some "EISDIR") :
    getFileInfo fs path =
      { blob := (fs path).blob, «exists» := false, isFile := false, mimeType := none } := by
  cases code with
  | none => simp [getFileInfo, hread, isErrorlike]
  | some c => simp [getFileInfo, hread, isErrorlike, hcode]

theorem getFileInfo_eisdir_eq (fs : String → FsEntry) (path : String)
    (hread : (fs path).read = ReadOutcome.err (some "EISDIR")) :
    getFileInfo fs path =
      { blob := (fs path).blob, «exists» := true, isFile := false, mimeType := none } := by
  simp [getFileInfo, hread, isErrorlike]

theorem getFileInfo_ok_eq (fs : String → FsEntry) (path : String)
    (hread : (fs path).read = ReadOutcome.ok) :
    getFileInfo fs path =
      { blob := (fs path).blob, «exists» := true, isFile := true
        mimeType := if getMimeType (fs path).blob = "application/octet-stream" then none
          else some (getMimeType (fs path).blob) } := by
  simp [getFileInfo, hread]

theorem getFileInfo_isFile_exists (fs : String → FsEntry) (path : String)
    (h : (getFileInfo fs path).isFile = true) :
    (getFileInfo fs path).«exists» = true := by
  cases hread : (fs path).read with
  | ok => rw [getFileInfo_ok_eq fs path hread]
  | err code =>
    by_cases hc : code = some "EISDIR"
    · rw [hc] at hread
      rw [getFileInfo_eisdir_eq fs path hread] at h
      exact absurd h (by simp)
    · rw [getFileInfo_err_not_eisdir fs path code hread hc] at h
      exact absurd h (by simp)

theorem getResponse_404_eq (fs : String → FsEntry) (root : String)
    (opts : ServeStaticOptions) (p : String)
    (h : (getFileInfo fs (root ++ "/" ++ getPathname p opts.stripFromPathname)).«exists» = false) :
    getResponse fs root opts p =
      { body := some "404 Not Found"
        status := 404
        headers := setHeader opts.headers "Content-Type" ("text/plain; charset=" ++ opts.charset) } := by
  simp [getResponse, h]

theorem getResponse_308_eq (fs : String → FsEntry) (root : String)
    (opts : ServeStaticOptions) (p : String)
    (h : (getFileInfo fs (root ++ "/" ++ getPathname p opts.stripFromPathname)).«exists» = true)
    (hr : getRedirectPath (getPathname p opts.stripFromPathname)
        (getFileInfo fs (root ++ "/" ++ getPathname p opts.stripFromPathname)).isFile
        opts.collapseSlashes opts.dirTrailingSlash ≠ getPathname p opts.stripFromPathname) :
    getResponse fs root opts p =
      { body := none
        status := 308
        headers := setHeader opts.headers "Location"
          (getRedirectPath (getPathname p opts.stripFromPathname)
            (getFileInfo fs (root ++ "/" ++ getPathname p opts.stripFromPathname)).isFile
            opts.collapseSlashes opts.dirTrailingSlash) } := by
  simp [getResponse, h, hr]

theorem getResponse_200_eq (fs : String → FsEntry) (root : String)
    (opts : ServeStaticOptions) (p : String) (f : FileInfo)
    (h : (getFileInfo fs (root ++ "/" ++ getPathname p opts.stripFromPathname)).«exists» = true)
    (hr : getRedirectPath (getPathname p opts.stripFromPathname)
        (getFileInfo fs (root ++ "/" ++ getPathname p opts.stripFromPathname)).isFile
        opts.collapseSlashes opts.dirTrailingSlash = getPathname p opts.stripFromPathname)
    (hf : getFileToServe fs (getPathname p opts.stripFromPathname)
        (getFileInfo fs (root ++ "/" ++ getPathname p opts.stripFromPathname)) root
        opts.index opts.dotfiles = some f) :
    getResponse fs root opts p =
      { body := some f.blob.content
        status := 200
        headers := setHeader opts.headers "Content-Type"
          ((f.mimeType.getD opts.defaultMimeType) ++ "; charset=" ++ opts.charset) } := by
  simp [getResponse, h, hr, hf]

theorem getResponse_403_eq (fs : String → FsEntry) (root : String)
    (opts : ServeStaticOptions) (p : String)
    (h : (getFileInfo fs (root ++ "/" ++ getPathname p opts.stripFromPathname)).«exists» = true)
    (hr : getRedirectPath (getPathname p opts.stripFromPathname)
        (getFileInfo fs (root ++ "/" ++ getPathname p opts.stripFromPathname)).isFile
        opts.collapseSlashes opts.dirTrailingSlash = getPathname p opts.stripFromPathname)
    (hf : getFileToServe fs (getPathname p opts.stripFromPathname)
        (getFileInfo fs (root ++ "/" ++ getPathname p opts.stripFromPathname)) root
        opts.index opts.dotfiles = none) :
    getResponse fs root opts p =
      { body := some "403 Forbidden"
        status := 403
        headers := setHeader opts.headers "Content-Type" ("text/plain; charset=" ++ opts.charset) } := by
  simp [getResponse, h, hr, hf]

end ServeStaticBun

/-! Claim theorems. -/

namespace ServeStaticBun

/-- C1: for every request whose probed path does not exist, `getResponse`
responds 404 immediately — the response is exactly the plain-text 404,
with a `Content-Type` header, and (when the configured extra headers do
not supply one) no `Location` header — regardless of the slash-collapsing
and trailing-slash options. -/
theorem missing_path_responds_404 (fs : String → FsEntry) (root : String)
    (opts : ServeStaticOptions) (p : String)
    (h : (getFileInfo fs (root ++ "/" ++ getPathname p opts.stripFromPathname)).«exists» = false) :
    getResponse fs root opts p =
      { body := some "404 Not Found"
        status := 404
        headers := setHeader opts.headers "Content-Type" ("text/plain; charset=" ++ opts.charset) } ∧
    getHeader (getResponse fs root opts p).headers "Content-Type" =
      some ("text/plain; charset=" ++ opts.charset) ∧
    (getHeader opts.headers "Location" = none →
      getHeader (getResponse fs root opts p).headers "Location" = none) := by
  have he := getResponse_404_eq fs root opts p h
  refine ⟨he, ?_, ?_⟩
  · rw [he]
    exact getHeader_setHeader_same _ _ _
  · intro hLoc
    rw [he]
    have hne : ("Location" : String) ≠ "Content-Type" := by decide
    rw [getHeader_setHeader_ne _ _ _ _ hne]
    exact hLoc

/-- Witness for C1: a concrete missing path gives exactly the 404
response. -/
theorem missing_path_responds_404_witness :
    getResponse enoentFs "root" {} "/missing.txt" =
      { body := some "404 Not Found"
        status := 404
        headers := setHeader ({} : ServeStaticOptions).headers "Content-Type"
          ("text/plain; charset=" ++ ({} : ServeStaticOptions).charset) } ∧
    getHeader (getResponse enoentFs "root" {} "/missing.txt").headers "Content-Type" =
      some ("text/plain; charset=" ++ ({} : ServeStaticOptions).charset) ∧
    (getHeader ({} : ServeStaticOptions).headers "Location" = none →
      getHeader (getResponse enoentFs "root" {} "/missing.txt").headers "Location" = none) :=
  missing_path_responds_404 enoentFs "root" {} "/missing.txt" rfl

/-- C3 counterexample: an unclassified I/O failure (`EACCES`, permission
denied) does not surface as an unhandled failure — the resolver converts
it into an ordinary 404 response. -/
theorem unclassified_io_becomes_404_cex :
    getResponse eaccesFs "root" {} "/x" =
      { body := some "404 Not Found"
        status := 404
        headers := [("Content-Type", "text/plain; charset=utf-8")] } := rfl

/-- C3 amended: every read failure other than `EISDIR` — permission
errors included, with or without a `code` property — is caught inside the
probe, which reports `exists = false`, and the resolver turns it into a
404 response. -/
theorem unclassified_io_error_caught (fs : String → FsEntry) (root : String)
    (opts : ServeStaticOptions) (p : String) (code : Option String)
    (hread : (fs (root ++ "/" ++ getPathname p opts.stripFromPathname)).read =
      ReadOutcome.err code)
    (hcode : code ≠ some "EISDIR") :
    (getFileInfo fs (root ++ "/" ++ getPathname p opts.stripFromPathname)).«exists» = false ∧
    (getResponse fs root opts p).status = 404 := by
  have hex := getFileInfo_err_not_eisdir fs _ code hread hcode
  refine ⟨by rw [hex], ?_⟩
  rw [getResponse_404_eq fs root opts p (by rw [hex])]

/-- Witness for C3 amended: concrete `EACCES` failure, caught and turned
into a 404. -/
theorem unclassified_io_error_caught_witness :
    (getFileInfo eaccesFs ("root" ++ "/" ++ getPathname "/x"
      ({} : ServeStaticOptions).stripFromPathname)).«exists» = false ∧
    (getResponse eaccesFs "root" {} "/x").status = 404 :=
  unclassified_io_error_caught eaccesFs "root" {} "/x" (some "EACCES") rfl (by decide)

/-- C4 counterexample: a 308 redirect produced with no extra headers
carries a `Location` header but no `Content-Type` header, so not every
response includes `Content-Type`. -/
theorem redirect_lacks_content_type_cex :
    (getResponse alwaysDirFs "root" {} "/a").status = 308 ∧
    getHeader (getResponse alwaysDirFs "root" {} "/a").headers "Content-Type" = none ∧
    getHeader (getResponse alwaysDirFs "root" {} "/a").headers "Location" = some "/a/" :=
  ⟨rfl, rfl, rfl⟩

/-- C4 amended: with no extra headers configured, every non-redirect
response (200, 403, 404) includes a `Content-Type` header, while the 308
redirect includes a `Location` header and no `Content-Type` header. -/
theorem response_headers_by_status (fs : String → FsEntry) (root : String)
    (opts : ServeStaticOptions) (p : String) (hh : opts.headers = []) :
    ((getResponse fs root opts p).status ≠ 308 →
      getHeader (getResponse fs root opts p).headers "Content-Type" ≠ none) ∧
    ((getResponse fs root opts p).status = 308 →
      getHeader (getResponse fs root opts p).headers "Location" ≠ none ∧
      getHeader (getResponse fs root opts p).headers "Content-Type" = none) := by
  by_cases h : (getFileInfo fs (root ++ "/" ++ getPathname p opts.stripFromPathname)).«exists» = true
  · by_cases hr : getRedirectPath (getPathname p opts.stripFromPathname)
        (getFileInfo fs (root ++ "/" ++ getPathname p opts.stripFromPathname)).isFile
        opts.collapseSlashes opts.dirTrailingSlash = getPathname p opts.stripFromPathname
    · cases hf : getFileToServe fs (getPathname p opts.stripFromPathname)
          (getFileInfo fs (root ++ "/" ++ getPathname p opts.stripFromPathname)) root
          opts.index opts.dotfiles with
      | some f =>
        rw [getResponse_200_eq fs root opts p f h hr hf]
        exact ⟨fun _ => by simp [hh, setHeader, getHeader], fun hs => by simp at hs⟩
      | none =>
        rw [getResponse_403_eq fs root opts p h hr hf]
        exact ⟨fun _ => by simp [hh, setHeader, getHeader], fun hs => by simp at hs⟩
    · rw [getResponse_308_eq fs root opts p h hr]
      exact ⟨fun hs => absurd rfl hs, fun _ => by simp [hh, setHeader, getHeader]⟩
  · rw [getResponse_404_eq fs root opts p (by simpa using h)]
    exact ⟨fun _ => by simp [hh, setHeader, getHeader], fun hs => by simp at hs⟩

/-- Witness for C4 amended: the concrete directory redirect has a
`Location` header and no `Content-Type` header. -/
theorem response_headers_by_status_witness :
    ((getResponse alwaysDirFs "root" {} "/a").status ≠ 308 →
      getHeader (getResponse alwaysDirFs "root" {} "/a").headers "Content-Type" ≠ none) ∧
    ((getResponse alwaysDirFs "root" {} "/a").status = 308 →
      getHeader (getResponse alwaysDirFs "root" {} "/a").headers "Location" ≠ none ∧
      getHeader (getResponse alwaysDirFs "root" {} "/a").headers "Content-Type" = none) :=
  response_headers_by_status alwaysDirFs "root" {} "/a" rfl

/-- C5: the status of every response produced by the resolver is one of
exactly 200, 308, 403 and 404. -/
theorem getResponse_status_one_of (fs : String → FsEntry) (root : String)
    (opts : ServeStaticOptions) (p : String) :
    (getResponse fs root opts p).status = 200 ∨
      (getResponse fs root opts p).status = 308 ∨
        (getResponse fs root opts p).status = 403 ∨
          (getResponse fs root opts p).status = 404 := by
  by_cases h : (getFileInfo fs (root ++ "/" ++ getPathname p opts.stripFromPathname)).«exists» = true
  · by_cases hr : getRedirectPath (getPathname p opts.stripFromPathname)
        (getFileInfo fs (root ++ "/" ++ getPathname p opts.stripFromPathname)).isFile
        opts.collapseSlashes opts.dirTrailingSlash = getPathname p opts.stripFromPathname
    · cases hf : getFileToServe fs (getPathname p opts.stripFromPathname)
          (getFileInfo fs (root ++ "/" ++ getPathname p opts.stripFromPathname)) root
          opts.index opts.dotfiles with
      | some f =>
        rw [getResponse_200_eq fs root opts p f h hr hf]
        exact Or.inl rfl
      | none =>
        rw [getResponse_403_eq fs root opts p h hr hf]
        exact Or.inr (Or.inr (Or.inl rfl))
    · rw [getResponse_308_eq fs root opts p h hr]
      exact Or.inr (Or.inl rfl)
  · rw [getResponse_404_eq fs root opts p (by simpa using h)]
    exact Or.inr (Or.inr (Or.inr rfl))

/-- C8: a path whose read fails with `EISDIR` (a directory) is a
recognized outcome of the probe, reported as `exists = true`,
`isFile = false` rather than propagated. -/
theorem directory_probe_recognized (fs : String → FsEntry) (path : String)
    (h : (fs path).read = ReadOutcome.err (some "EISDIR")) :
    (getFileInfo fs path).«exists» = true ∧ (getFileInfo fs path).isFile = false := by
  rw [getFileInfo_eisdir_eq fs path h]
  exact ⟨rfl, rfl⟩

/-- Witness for C8: the probe on a concrete directory reports
`exists = true`, `isFile = false`. -/
theorem directory_probe_recognized_witness :
    (getFileInfo alwaysDirFs "/d").«exists» = true ∧
    (getFileInfo alwaysDirFs "/d").isFile = false :=
  directory_probe_recognized alwaysDirFs "/d" rfl

/-- C10: the bao middleware adapter returns the incoming context
unmodified when the resolved status is 403 or 404 and `handleErrors` is
false; when `handleErrors` is true, or for any other status, it sends the
resolved response through the context and marks it terminally sent. -/
theorem bao_middleware_error_passthrough (g : String → Response)
    (handleErrors : Bool) (ctx : Context) :
    (((g ctx.req).status = 403 ∨ (g ctx.req).status = 404) →
      (handleErrors = false → getBaoMiddleware g handleErrors ctx = ctx) ∧
      (handleErrors = true →
        getBaoMiddleware g handleErrors ctx = (ctx.sendRaw (g ctx.req)).forceSend)) ∧
    ((g ctx.req).status ≠ 403 → (g ctx.req).status ≠ 404 →
      getBaoMiddleware g handleErrors ctx = (ctx.sendRaw (g ctx.req)).forceSend) := by
  constructor
  · intro hst
    constructor
    · intro hfe
      subst hfe
      rcases hst with h | h <;> simp [getBaoMiddleware, h]
    · intro hte
      subst hte
      rcases hst with h | h <;> simp [getBaoMiddleware, h]
  · intro h1 h2
    simp [getBaoMiddleware, h1, h2]

/-- Witness for C10: with `handleErrors = false`, a concrete 404 response
leaves the context untouched while a concrete 200 response is sent and
force-sent. -/
theorem bao_middleware_error_passthrough_witness :
    getBaoMiddleware (fun _ => { body := some "404 Not Found", status := 404, headers := [] })
        false { req := "/x" } = { req := "/x" } ∧
    getBaoMiddleware (fun _ => { body := none, status := 200, headers := [] })
        false { req := "/x" } =
      (Context.sendRaw { req := "/x" }
        { body := none, status := 200, headers := [] }).forceSend :=
  ⟨((bao_middleware_error_passthrough _ false _).1 (Or.inr rfl)).1 rfl,
   (bao_middleware_error_passthrough _ false _).2 (by decide) (by decide)⟩

end ServeStaticBun

namespace ServeStaticBun

/-- C9: for a request whose final path segment starts with a dot and
which resolves to a regular file with no redirect pending (and no usable
index file next to it), the resolver serves the file with 200 under
`dotfiles = "allow"` and falls through to 403 under the default
`dotfiles = "deny"`. -/
theorem dotfile_policy (fs : String → FsEntry) (root : String)
    (opts : ServeStaticOptions) (p : String)
    (hdot : startsWithPat
      ((splitOnSlash (getPathname p opts.stripFromPathname).data).getLastD []) ".".data = true)
    (hfile : (getFileInfo fs (root ++ "/" ++ getPathname p opts.stripFromPathname)).isFile = true)
    (hnored : getRedirectPath (getPathname p opts.stripFromPathname)
        (getFileInfo fs (root ++ "/" ++ getPathname p opts.stripFromPathname)).isFile
        opts.collapseSlashes opts.dirTrailingSlash = getPathname p opts.stripFromPathname)
    (hindex : ∀ idx, opts.index = some idx →
      ¬((getFileInfo fs (root ++ "/" ++ getPathname p opts.stripFromPathname ++ "/" ++ idx)).«exists» = true ∧
        (getFileInfo fs (root ++ "/" ++ getPathname p opts.stripFromPathname ++ "/" ++ idx)).isFile = true)) :
    (opts.dotfiles = "allow" →
      (getResponse fs root opts p).status = 200 ∧
      (getResponse fs root opts p).body =
        some (getFileInfo fs (root ++ "/" ++ getPathname p opts.stripFromPathname)).blob.content) ∧
    (opts.dotfiles = "deny" →
      (getResponse fs root opts p).status = 403) := by
  have hex : (getFileInfo fs (root ++ "/" ++ getPathname p opts.stripFromPathname)).«exists» = true :=
    getFileInfo_isFile_exists _ _ hfile
  rw [List.getLastD_eq_getLast?] at hdot
  constructor
  · intro hallow
    have hserve : getFileToServe fs (getPathname p opts.stripFromPathname)
        (getFileInfo fs (root ++ "/" ++ getPathname p opts.stripFromPathname)) root
        opts.index opts.dotfiles =
        some (getFileInfo fs (root ++ "/" ++ getPathname p opts.stripFromPathname)) := by
      simp [getFileToServe, hfile, hallow]
    rw [getResponse_200_eq fs root opts p _ hex hnored hserve]
    exact ⟨rfl, rfl⟩
  · intro hdeny
    have hserve : getFileToServe fs (getPathname p opts.stripFromPathname)
        (getFileInfo fs (root ++ "/" ++ getPathname p opts.stripFromPathname)) root
        opts.index opts.dotfiles = none := by
      have hna : ¬(opts.dotfiles = "allow") := by
        rw [hdeny]; decide
      cases hidx : opts.index with
      | none => simp [getFileToServe, hfile, hdot, hna, hidx]
      | some idx =>
        have hni := hindex idx hidx
        simp [getFileToServe, hfile, hdot, hna, hidx, Bool.and_eq_true]
        exact fun h1 => Bool.eq_false_iff.mpr (fun h2 => hni ⟨h1, h2⟩)
    rw [getResponse_403_eq fs root opts p hex hnored hserve]

end ServeStaticBun

namespace ServeStaticBun

/-- Witness for C9: a concrete regular file `/.secret`; the resolver
serves its bytes with 200 under `dotfiles = "allow"` and responds 403
under the default deny policy. -/
theorem dotfile_policy_witness :
    ((getResponse (fileAt "root//.secret" "text/plain;charset=utf-8" "s3cret") "root"
        { dotfiles := "allow" } "/.secret").status = 200 ∧
      (getResponse (fileAt "root//.secret" "text/plain;charset=utf-8" "s3cret") "root"
        { dotfiles := "allow" } "/.secret").body = some "s3cret") ∧
    (getResponse (fileAt "root//.secret" "text/plain;charset=utf-8" "s3cret") "root"
      {} "/.secret").status = 403 :=
  ⟨(dotfile_policy (fileAt "root//.secret" "text/plain;charset=utf-8" "s3cret") "root"
      { dotfiles := "allow" } "/.secret" rfl rfl rfl
      (fun idx hidx => by
        simp only [Option.some.injEq] at hidx
        subst hidx
        decide)).1 rfl,
   (dotfile_policy (fileAt "root//.secret" "text/plain;charset=utf-8" "s3cret") "root"
      {} "/.secret" rfl rfl rfl
      (fun idx hidx => by
        simp only [Option.some.injEq] at hidx
        subst hidx
        decide)).2 rfl⟩

end ServeStaticBun

/-! Lemmas about the slash normalizer. -/

namespace ServeStaticBun

theorem hDS_iff (l : List Char) :
    hasDoubleSlash l = true ↔ ∃ s t, l = s ++ '/' :: '/' :: t := by
  induction l using hasDoubleSlash.induct with
  | case1 =>
    constructor
    · intro h
      exact absurd h (by decide)
    · rintro ⟨s, t, h⟩
      cases s <;> simp at h
  | case2 c =>
    constructor
    · intro h
      exact absurd h (by simp [hasDoubleSlash])
    · rintro ⟨s, t, h⟩
      cases s with
      | nil => simp at h
      | cons a s2 =>
        simp only [List.cons_append, List.cons.injEq] at h
        rcases h with ⟨-, h2⟩
        cases s2 <;> simp at h2
  | case3 a b rest ih =>
    simp only [hasDoubleSlash, Bool.or_eq_true, Bool.and_eq_true, decide_eq_true_eq]
    constructor
    · rintro (⟨ha, hb⟩ | h)
      · subst ha; subst hb
        exact ⟨[], rest, rfl⟩
      · obtain ⟨s, t, hst⟩ := ih.mp h
        exact ⟨a :: s, t, by rw [List.cons_append, ← hst]⟩
    · rintro ⟨s, t, hst⟩
      cases s with
      | nil =>
        simp only [List.nil_append, List.cons.injEq] at hst
        exact Or.inl ⟨hst.1, hst.2.1⟩
      | cons c s2 =>
        simp only [List.cons_append, List.cons.injEq] at hst
        exact Or.inr (ih.mpr ⟨s2, t, hst.2⟩)

theorem hDS_take (l : List Char) (n : Nat) (h : hasDoubleSlash l = false) :
    hasDoubleSlash (l.take n) = false := by
  by_contra hx
  have hx2 : hasDoubleSlash (l.take n) = true := by
    simpa using hx
  obtain ⟨s, t, hst⟩ := (hDS_iff (l.take n)).mp hx2
  have hl : l = s ++ '/' :: '/' :: (t ++ l.drop n) := by
    conv_lhs => rw [← List.take_append_drop n l]
    rw [hst]
    simp
  rw [(hDS_iff l).mpr ⟨_, _, hl⟩] at h
  exact absurd h (by decide)

theorem hDS_drop (l : List Char) (n : Nat) (h : hasDoubleSlash l = false) :
    hasDoubleSlash (l.drop n) = false := by
  by_contra hx
  have hx2 : hasDoubleSlash (l.drop n) = true := by
    simpa using hx
  obtain ⟨s, t, hst⟩ := (hDS_iff (l.drop n)).mp hx2
  have hl : l = (l.take n ++ s) ++ '/' :: '/' :: t := by
    conv_lhs => rw [← List.take_append_drop n l]
    rw [hst]
    simp
  rw [(hDS_iff l).mpr ⟨_, _, hl⟩] at h
  exact absurd h (by decide)

theorem hDS_cons_false {a : Char} {m : List Char}
    (h : hasDoubleSlash (a :: m) = false) :
    hasDoubleSlash m = false ∧ (a = '/' → m.head? ≠ some '/') := by
  cases m with
  | nil => exact ⟨rfl, by simp⟩
  | cons b r =>
    simp only [hasDoubleSlash, Bool.or_eq_false_iff, Bool.and_eq_false_iff] at h
    refine ⟨h.2, ?_⟩
    intro ha
    rcases h.1 with h1 | h1 <;> simp_all

theorem hDS_cons_of (a : Char) (m : List Char)
    (h1 : hasDoubleSlash m = false) (h2 : a = '/' → m.head? ≠ some '/') :
    hasDoubleSlash (a :: m) = false := by
  cases m with
  | nil => rfl
  | cons b r =>
    simp only [hasDoubleSlash, Bool.or_eq_false_iff, Bool.and_eq_false_iff]
    refine ⟨?_, h1⟩
    by_cases ha : a = '/'
    · right
      have := h2 ha
      simp only [List.head?_cons, ne_eq, Option.some.injEq] at this
      simpa using this
    · left
      simpa using ha

end ServeStaticBun

namespace ServeStaticBun

theorem endsWithSlash_concat (x : List Char) :
    endsWithSlash (x ++ ['/']) = true := by
  simp [endsWithSlash, List.getLast?_concat]

theorem endsWithSlash_cons_cons (a b : Char) (l : List Char) :
    endsWithSlash (a :: b :: l) = endsWithSlash (b :: l) := by
  simp [endsWithSlash, List.getLast?_cons_cons]

theorem endsWithSlash_true_iff (w : List Char) :
    endsWithSlash w = true ↔ ∃ y, w = y ++ ['/'] := by
  induction w with
  | nil =>
    constructor
    · intro h
      exact absurd h (by decide)
    · rintro ⟨y, hy⟩
      cases y <;> simp at hy
  | cons c rest ih =>
    cases rest with
    | nil =>
      constructor
      · intro h
        have hc : c = '/' := by
          simpa [endsWithSlash] using h
        exact ⟨[], by rw [hc]; rfl⟩
      · rintro ⟨y, hy⟩
        cases y with
        | nil =>
          simp only [List.nil_append, List.cons.injEq] at hy
          rw [hy.1]
          decide
        | cons a ys =>
          simp only [List.cons_append, List.cons.injEq] at hy
          rcases hy with ⟨-, h2⟩
          cases ys <;> simp at h2
    | cons r rs =>
      rw [endsWithSlash_cons_cons, ih]
      constructor
      · rintro ⟨y, hy⟩
        exact ⟨c :: y, by rw [List.cons_append, ← hy]⟩
      · rintro ⟨y, hy⟩
        cases y with
        | nil => simp at hy
        | cons a ys =>
          simp only [List.cons_append, List.cons.injEq] at hy
          exact ⟨ys, hy.2⟩

end ServeStaticBun

namespace ServeStaticBun

theorem take_length_append (x y : List Char) : (x ++ y).take x.length = x :=
  List.take_left x y

theorem head?_append_ne_nil (x y : List Char) (h : x ≠ []) :
    (x ++ y).head? = x.head? := by
  cases x with
  | nil => exact absurd rfl h
  | cons c r => rfl

theorem aux_false_slash (t : List Char) :
    collapseRunsAux false ('/' :: t) = '/' :: collapseRunsAux true t := by
  simp [collapseRunsAux]

theorem aux_true_slash (t : List Char) :
    collapseRunsAux true ('/' :: t) = collapseRunsAux true t := by
  simp [collapseRunsAux]

theorem aux_nonslash (b : Bool) (c : Char) (t : List Char) (h : c ≠ '/') :
    collapseRunsAux b (c :: t) = c :: collapseRunsAux false t := by
  simp [collapseRunsAux, h]

theorem aux_true_head (l : List Char) :
    (collapseRunsAux true l).head? ≠ some '/' := by
  induction l with
  | nil => simp [collapseRunsAux]
  | cons c rest ih =>
    by_cases hc : c = '/'
    · subst hc
      rw [aux_true_slash]
      exact ih
    · rw [aux_nonslash true c rest hc]
      simp [hc]

theorem aux_no_double (l : List Char) : ∀ b,
    hasDoubleSlash (collapseRunsAux b l) = false := by
  induction l with
  | nil => intro b; rfl
  | cons c rest ih =>
    intro b
    by_cases hc : c = '/'
    · subst hc
      cases b
      · rw [aux_false_slash]
        exact hDS_cons_of '/' _ (ih true) (fun _ => aux_true_head rest)
      · rw [aux_true_slash]
        exact ih true
    · rw [aux_nonslash b c rest hc]
      exact hDS_cons_of c _ (ih false) (fun hcc => absurd hcc hc)

theorem aux_fix (l : List Char) (h : hasDoubleSlash l = false) :
    collapseRunsAux false l = l ∧
    (l.head? ≠ some '/' → collapseRunsAux true l = l) := by
  induction l with
  | nil => exact ⟨rfl, fun _ => rfl⟩
  | cons c rest ih =>
    obtain ⟨h1, h2⟩ := hDS_cons_false h
    obtain ⟨ihf, iht⟩ := ih h1
    by_cases hc : c = '/'
    · subst hc
      constructor
      · rw [aux_false_slash, iht (h2 rfl)]
      · intro hh
        simp at hh
    · constructor
      · rw [aux_nonslash false c rest hc, ihf]
      · intro _
        rw [aux_nonslash true c rest hc, ihf]

theorem aux_append_slash_shape (t : List Char) :
    (∃ x, collapseRunsAux false (t ++ ['/']) = x ++ ['/']) ∧
    (collapseRunsAux true (t ++ ['/']) = [] ∨
      ∃ x, collapseRunsAux true (t ++ ['/']) = x ++ ['/']) := by
  induction t with
  | nil =>
    constructor
    · exact ⟨[], by decide⟩
    · exact Or.inl (by decide)
  | cons c rest ih =>
    obtain ⟨⟨x, hx⟩, hti⟩ := ih
    by_cases hc : c = '/'
    · subst hc
      rw [List.cons_append]
      constructor
      · rcases hti with h0 | ⟨y, hy⟩
        · exact ⟨[], by rw [aux_false_slash, h0]; rfl⟩
        · exact ⟨'/' :: y, by rw [aux_false_slash, hy]; rfl⟩
      · rw [aux_true_slash]
        exact hti
    · rw [List.cons_append]
      constructor
      · exact ⟨c :: x, by rw [aux_nonslash false c _ hc, hx]; rfl⟩
      · exact Or.inr ⟨c :: x, by rw [aux_nonslash true c _ hc, hx]; rfl⟩

theorem aux_trail (d : List Char) (h : hasDoubleSlash d = false)
    (he : endsWithSlash d = true) :
    collapseRunsAux false (d ++ ['/']) = d ∧
    (d.head? ≠ some '/' → collapseRunsAux true (d ++ ['/']) = d) := by
  induction d with
  | nil => exact absurd he (by decide)
  | cons c rest ih =>
    obtain ⟨h1, h2⟩ := hDS_cons_false h
    rcases hr : rest with - | ⟨r, rs⟩
    · subst hr
      have hc : c = '/' := by
        simpa [endsWithSlash] using he
      subst hc
      constructor
      · decide
      · intro hh
        simp at hh
    · subst hr
      have he2 : endsWithSlash (r :: rs) = true := by
        rw [← endsWithSlash_cons_cons c]
        exact he
      obtain ⟨ihf, iht⟩ := ih h1 he2
      constructor
      · by_cases hc : c = '/'
        · subst hc
          rw [List.cons_append, aux_false_slash, iht (h2 rfl)]
        · rw [List.cons_append, aux_nonslash false c _ hc, ihf]
      · intro hh
        by_cases hc : c = '/'
        · subst hc
          simp at hh
        · rw [List.cons_append, aux_nonslash true c _ hc, ihf]

theorem aux_true_append_slash (d : List Char) (h : hasDoubleSlash d = false)
    (hh : d.head? ≠ some '/') (hshape : d = [] ∨ ∃ x, d = x ++ ['/']) :
    collapseRunsAux true (d ++ ['/']) = d := by
  rcases hshape with rfl | ⟨x, rfl⟩
  · decide
  · exact (aux_trail (x ++ ['/']) h (endsWithSlash_concat x)).2 hh

end ServeStaticBun

namespace ServeStaticBun

theorem cll_tt (l : List Char) :
    collapseSlashesList l true true = collapseRunsAux false ('/' :: (l ++ ['/'])) := by
  simp [collapseSlashesList]

theorem cll_ft (l : List Char) :
    collapseSlashesList l false true =
      (collapseRunsAux false ('/' :: (l ++ ['/']))).drop 1 := by
  simp [collapseSlashesList]

theorem cll_tf (l : List Char) :
    collapseSlashesList l true false =
      (collapseRunsAux false ('/' :: (l ++ ['/']))).take
        ((collapseRunsAux false ('/' :: (l ++ ['/']))).length - 1) := by
  simp [collapseSlashesList]

theorem cll_ff (l : List Char) :
    collapseSlashesList l false false =
      ((collapseRunsAux false ('/' :: (l ++ ['/']))).drop 1).take
        (((collapseRunsAux false ('/' :: (l ++ ['/']))).drop 1).length - 1) := by
  simp [collapseSlashesList]

theorem collapseSlashesList_no_double (l : List Char) (kl kt : Bool) :
    hasDoubleSlash (collapseSlashesList l kl kt) = false := by
  have hc := aux_no_double ('/' :: (l ++ ['/'])) false
  cases kl <;> cases kt
  · rw [cll_ff]
    exact hDS_take _ _ (hDS_drop _ _ hc)
  · rw [cll_ft]
    exact hDS_drop _ _ hc
  · rw [cll_tf]
    exact hDS_take _ _ hc
  · rw [cll_tt]
    exact hc

theorem collapseSlashesList_idem (l : List Char) (kl kt : Bool) :
    collapseSlashesList (collapseSlashesList l kl kt) kl kt =
      collapseSlashesList l kl kt := by
  have hsplit : collapseRunsAux false ('/' :: (l ++ ['/'])) =
      '/' :: collapseRunsAux true (l ++ ['/']) := aux_false_slash _
  set d := collapseRunsAux true (l ++ ['/']) with hdd
  have hnd : hasDoubleSlash ('/' :: d) = false := by
    rw [← hsplit]
    exact aux_no_double _ false
  have hd : hasDoubleSlash d = false := (hDS_cons_false hnd).1
  have hdh : d.head? ≠ some '/' := aux_true_head _
  have hde : d = [] ∨ ∃ x, d = x ++ ['/'] := (aux_append_slash_shape l).2
  cases kl <;> cases kt
  · -- keepLeading = false, keepTrailing = false
    rcases hde with hde0 | ⟨x, hx⟩
    · rw [cll_ff l, hsplit, hde0]
      decide
    · have hx0 : x ≠ [] := by
        rintro rfl
        rw [hx] at hdh
        simp at hdh
      have hxh : x.head? ≠ some '/' := by
        rw [hx, head?_append_ne_nil x ['/'] hx0] at hdh
        exact hdh
      have hdx : hasDoubleSlash (x ++ ['/']) = false := by
        rw [← hx]
        exact hd
      have hdrop : ('/' :: d).drop 1 = d := by simp
      have htake : d.take (d.length - 1) = x := by
        rw [hx]
        have h3 : (x ++ ['/']).length - 1 = x.length := by simp
        rw [h3, take_length_append]
      rw [cll_ff l, hsplit, hdrop, htake]
      rw [cll_ff x, aux_false_slash]
      have h5 : collapseRunsAux true (x ++ ['/']) = x ++ ['/'] :=
        (aux_fix (x ++ ['/']) hdx).2 (by rwa [head?_append_ne_nil x ['/'] hx0])
      rw [h5]
      have hdrop2 : ('/' :: (x ++ ['/'])).drop 1 = x ++ ['/'] := by simp
      rw [hdrop2]
      have h3 : (x ++ ['/']).length - 1 = x.length := by simp
      rw [h3, take_length_append]
  · -- keepLeading = false, keepTrailing = true
    have hdrop : ('/' :: d).drop 1 = d := by simp
    rw [cll_ft l, hsplit, hdrop]
    rw [cll_ft d, aux_false_slash, aux_true_append_slash d hd hdh hde]
    simp
  · -- keepLeading = true, keepTrailing = false
    rcases hde with hde0 | ⟨x, hx⟩
    · rw [cll_tf l, hsplit, hde0]
      decide
    · have hx0 : x ≠ [] := by
        rintro rfl
        rw [hx] at hdh
        simp at hdh
      have hxh : x.head? ≠ some '/' := by
        rw [hx, head?_append_ne_nil x ['/'] hx0] at hdh
        exact hdh
      have hdx : hasDoubleSlash (x ++ ['/']) = false := by
        rw [← hx]
        exact hd
      have htake : ('/' :: d).take (('/' :: d).length - 1) = '/' :: x := by
        rw [hx]
        have h2 : '/' :: (x ++ ['/']) = ('/' :: x) ++ ['/'] := rfl
        have h3 : ('/' :: (x ++ ['/'])).length - 1 = ('/' :: x).length := by simp
        rw [h2] at h3 ⊢
        rw [h3, take_length_append]
      rw [cll_tf l, hsplit, htake]
      rw [cll_tf ('/' :: x)]
      have h4 : ('/' :: x) ++ ['/'] = '/' :: (x ++ ['/']) := rfl
      rw [h4, aux_false_slash, aux_true_slash]
      have h5 : collapseRunsAux true (x ++ ['/']) = x ++ ['/'] :=
        (aux_fix (x ++ ['/']) hdx).2 (by rwa [head?_append_ne_nil x ['/'] hx0])
      rw [h5]
      have h6 : '/' :: (x ++ ['/']) = ('/' :: x) ++ ['/'] := rfl
      have h7 : ('/' :: (x ++ ['/'])).length - 1 = ('/' :: x).length := by simp
      rw [h6] at h7 ⊢
      rw [h7, take_length_append]
  · -- keepLeading = true, keepTrailing = true
    rw [cll_tt l, hsplit]
    rw [cll_tt ('/' :: d)]
    have h2 : ('/' :: d) ++ ['/'] = '/' :: (d ++ ['/']) := rfl
    rw [h2, aux_false_slash, aux_true_slash, aux_true_append_slash d hd hdh hde]

end ServeStaticBun

namespace ServeStaticBun

theorem collapseSlashes_data (s : String) (kl kt : Bool) :
    (collapseSlashes s kl kt).data = collapseSlashesList s.data kl kt := rfl

theorem collapseSlashesList_endsWithSlash (l : List Char) (kt : Bool) :
    endsWithSlash (collapseSlashesList l true kt) = kt := by
  have hsplit : collapseRunsAux false ('/' :: (l ++ ['/'])) =
      '/' :: collapseRunsAux true (l ++ ['/']) := aux_false_slash _
  set d := collapseRunsAux true (l ++ ['/']) with hdd
  have hnd : hasDoubleSlash ('/' :: d) = false := by
    rw [← hsplit]
    exact aux_no_double _ false
  have hdh : d.head? ≠ some '/' := aux_true_head _
  have hde : d = [] ∨ ∃ x, d = x ++ ['/'] := (aux_append_slash_shape l).2
  cases kt
  · rcases hde with hde0 | ⟨x, hx⟩
    · rw [cll_tf, hsplit, hde0]
      decide
    · have htake : ('/' :: d).take (('/' :: d).length - 1) = '/' :: x := by
        rw [hx]
        have h2 : '/' :: (x ++ ['/']) = ('/' :: x) ++ ['/'] := rfl
        have h3 : ('/' :: (x ++ ['/'])).length - 1 = ('/' :: x).length := by simp
        rw [h2] at h3 ⊢
        rw [h3, take_length_append]
      rw [cll_tf, hsplit, htake]
      suffices hne : endsWithSlash ('/' :: x) ≠ true by
        cases hb : endsWithSlash ('/' :: x)
        · rfl
        · exact absurd hb hne
      intro htr
      obtain ⟨y, hy⟩ := (endsWithSlash_true_iff _).mp htr
      have hdd2 : '/' :: d = y ++ '/' :: '/' :: ([] : List Char) := by
        rw [hx]
        have h2 : '/' :: (x ++ ['/']) = ('/' :: x) ++ ['/'] := rfl
        rw [h2, hy]
        simp
      rw [(hDS_iff ('/' :: d)).mpr ⟨y, [], hdd2⟩] at hnd
      exact absurd hnd (by decide)
  · rw [cll_tt, hsplit]
    rcases hde with hde0 | ⟨x, hx⟩
    · rw [hde0]
      decide
    · rw [hx]
      have h2 : '/' :: (x ++ ['/']) = ('/' :: x) ++ ['/'] := rfl
      rw [h2]
      exact endsWithSlash_concat _

/-- C6: for every input string and every combination of the
`keepLeading`/`keepTrailing` flags, the output of `collapseSlashes`
contains no two consecutive slashes anywhere. -/
theorem collapseSlashes_no_double_slash (str : String) (keepLeading keepTrailing : Bool) :
    hasDoubleSlash (collapseSlashes str keepLeading keepTrailing).data = false :=
  collapseSlashesList_no_double str.data keepLeading keepTrailing

/-- C7: `collapseSlashes` is idempotent under matching flags: applying it
twice with the same `keepLeading`/`keepTrailing` flags equals applying it
once. -/
theorem collapseSlashes_idempotent (p : String) (keepLeading keepTrailing : Bool) :
    collapseSlashes (collapseSlashes p keepLeading keepTrailing) keepLeading keepTrailing =
      collapseSlashes p keepLeading keepTrailing :=
  congrArg String.mk (collapseSlashesList_idem p.data keepLeading keepTrailing)

/-- C2 counterexample: with slash-collapsing enabled, a regular-file
target whose original request path ends in a slash keeps the trailing
slash in the computed redirect path, contradicting "a file target never
keeps a trailing slash". -/
theorem file_redirect_keeps_trailing_slash_cex :
    getRedirectPath "/a.txt/" true true true = "/a.txt/" ∧
    endsWithSlash (getRedirectPath "/a.txt/" true true true).data = true :=
  ⟨rfl, rfl⟩

/-- C2 amended: with slash-collapsing enabled and a regular-file target
(`isFile = true`), the computed redirect path ends with a trailing slash
exactly when the original path ended with one — trailing-slash
enforcement never appends a slash for a file target, and the collapse
step keeps the trailing slash only when the original path already had
one. -/
theorem file_redirect_trailing_slash_iff_original (pathname : String)
    (dirTrailingSlash : Bool) :
    endsWithSlash (getRedirectPath pathname true true dirTrailingSlash).data =
      endsWithSlash pathname.data := by
  simp only [getRedirectPath, Bool.not_true, Bool.and_false, Bool.false_and,
    if_true, if_false, ite_true, ite_false]
  rw [if_neg (show ¬(false = true) by decide), collapseSlashes_data]
  exact collapseSlashesList_endsWithSlash pathname.data (endsWithSlash pathname.data)

end ServeStaticBun
